import Mathlib

/-!
Verification of the report-execution and XML result-parsing pipeline of the
py-mstr MicroStrategy client (src/py_mstr/py_mstr.py).

The Python source is shallowly embedded as follows.

* XML documents (the responses parsed with pyquery/lxml) become the inductive
  type `Xml`; the pyquery operations used by the source (select all elements
  with a tag, select descendants by attribute equality, direct children,
  first attribute value, element text) become the `pq...` functions, all
  returning matches in document order (pre-order traversal).
* Python object identity for the `Attribute`/`Metric` singleton classes
  (`Singleton.__call__` keyed on the first constructor argument) becomes an
  explicit heap: descriptors live in a store, references are indices, and the
  two `_instances` class dictionaries become two lookup tables.  Reference
  equality of two descriptors is equality of their indices.
* Raised exceptions become `Except`/explicit error results of type `PyError`;
  `MstrReportException msg` becomes `PyError.mstrReport msg`, and the
  lower-level Python failures the code can hit (attribute access on `None`,
  string concatenation with `None`, dictionary and list indexing) become the
  other `PyError` constructors.
* The mutable fields of a `Report` object (`_attributes`, `_metrics`,
  `_headers`, `_values`) become the record `ReportState`, threaded
  explicitly.  The transport collaborator (`MstrClient._request`) becomes a
  `World` holding a response stream and a call counter; one request consumes
  one response and bumps the counter.  Request parameter dictionaries are not
  modelled beyond the call count, since no claim inspects them.
* `Report._format_value_prompts` contains a `pudb.set_trace()` debugger
  breakpoint in the source; a breakpoint does not change the computed value,
  so it has no counterpart here.  `Report.execute` is modelled on its
  unprompted path (no prompt-answer arguments); the two prompt formatters the
  claims mention are modelled as the standalone functions they are.
-/

namespace PyMstr

/-! ## XML documents and the pyquery operations the source uses -/

inductive Xml : Type where
  | elem (tag : String) (attrs : List (String × String)) (text : Option String)
      (children : List Xml)
deriving Repr

def Xml.tag : Xml → String
  | .elem t _ _ _ => t

def Xml.attrs : Xml → List (String × String)
  | .elem _ a _ _ => a

def Xml.text : Xml → Option String
  | .elem _ _ x _ => x

def Xml.children : Xml → List Xml
  | .elem _ _ _ cs => cs

mutual

/-- All elements of the subtree rooted at a node, in document order. -/
def selfAndDescendants : Xml → List Xml
  | .elem t a x cs => Xml.elem t a x cs :: selfAndDescendantsList cs

def selfAndDescendantsList : List Xml → List Xml
  | [] => []
  | c :: rest => selfAndDescendants c ++ selfAndDescendantsList rest

end

/-- Proper descendants of a node, in document order. -/
def descendants (x : Xml) : List Xml :=
  selfAndDescendantsList x.children

/-- pyquery `d('tag')`: every element with the given tag, in document order. -/
def pqTag (d : Xml) (tag : String) : List Xml :=
  (selfAndDescendants d).filter (fun x => x.tag == tag)

/-- pyquery `sel("[key='v']")`: descendants of the selected elements whose
`key` attribute equals `v`. -/
def pqFindAttr (key v : String) : List Xml → List Xml
  | [] => []
  | x :: rest =>
      (descendants x).filter (fun c => c.attrs.lookup key == some v) ++
        pqFindAttr key v rest

/-- pyquery `sel('tag')`: descendants of the selected elements with the tag. -/
def pqFindTag (tag : String) : List Xml → List Xml
  | [] => []
  | x :: rest => (descendants x).filter (fun c => c.tag == tag) ++ pqFindTag tag rest

/-- pyquery `sel.children()`: direct children of each selected element. -/
def pqChildren : List Xml → List Xml
  | [] => []
  | x :: rest => x.children ++ pqChildren rest

/-- pyquery `sel.attr('key')`: the attribute of the first selected element
(`None` when the selection is empty or the attribute is absent). -/
def pqAttr (sel : List Xml) (key : String) : Option String :=
  match sel with
  | [] => none
  | x :: _ => x.attrs.lookup key

/-- lxml `element.find('tag')`: the first direct child with the tag. -/
def childFind (x : Xml) (tag : String) : Option Xml :=
  x.children.find? (fun c => c.tag == tag)

/-! ## Errors -/

/-- The failures the embedded code can signal.  `mstrReport` is
`MstrReportException`; the others are the lower-level Python exceptions the
source can raise (attribute access on `None`, `str + None`, `dict[missing]`,
`list[out-of-range]`). -/
inductive PyError : Type where
  | mstrReport (msg : String)
  | attributeError
  | typeError
  | keyError
  | indexError
deriving DecidableEq, Repr

/-! ## The Attribute/Metric singleton registry (`Singleton.__call__`)

`Attribute` and `Metric` each carry a class-level `_instances` dictionary
keyed by the first constructor argument (the guid); construction returns the
stored instance when the key is present and otherwise builds, stores and
returns a fresh one.  Guids and names are `Option String` because the call
sites feed them pyquery `.attr`/lxml `.text` results, which can be `None`. -/

inductive DescKind : Type where
  | attribute
  | metric
deriving DecidableEq, Repr

structure ColumnDesc : Type where
  kind : DescKind
  guid : Option String
  name : Option String
deriving DecidableEq, Repr

structure Heap : Type where
  store : List ColumnDesc
  attrInstances : List (Option String × Nat)
  metricInstances : List (Option String × Nat)
deriving Repr

def emptyHeap : Heap := ⟨[], [], []⟩

/-- `Attribute(guid, name)` under the `Singleton` metaclass. -/
def internAttribute (h : Heap) (g n : Option String) : Heap × Nat :=
  match h.attrInstances.lookup g with
  | some r => (h, r)
  | none =>
      let r := h.store.length
      ({ h with store := h.store ++ [⟨DescKind.attribute, g, n⟩],
                attrInstances := (g, r) :: h.attrInstances }, r)

/-- `Metric(guid, name)` under the `Singleton` metaclass. -/
def internMetric (h : Heap) (g n : Option String) : Heap × Nat :=
  match h.metricInstances.lookup g with
  | some r => (h, r)
  | none =>
      let r := h.store.length
      ({ h with store := h.store ++ [⟨DescKind.metric, g, n⟩],
                metricInstances := (g, r) :: h.metricInstances }, r)

/-- Construction of either descriptor kind, dispatching to the two
singleton classes. -/
def intern : DescKind → Heap → Option String → Option String → Heap × Nat
  | .attribute => internAttribute
  | .metric => internMetric

/-- The kind tag of the descriptor a reference denotes. -/
def kindAt (h : Heap) (r : Nat) : Option DescKind :=
  (h.store.get? r).map ColumnDesc.kind

/-- The `_instances` table of the given kind. -/
def instLookup : DescKind → Heap → Option String → Option Nat
  | .attribute, h, g => h.attrInstances.lookup g
  | .metric, h, g => h.metricInstances.lookup g

/-! ## Prompts and the request formatters -/

/-- The value object an element prompt is bound to; the formatter reads only
its guid, so no heap reference is needed here. -/
structure AttributeVal : Type where
  guid : Option String
  name : Option String
deriving DecidableEq, Repr

/-- `Prompt(guid, prompt_str, required, attribute=None)`. -/
structure PromptObj : Type where
  guid : Option String
  prompt_str : Option String
  required : Option String
  «attribute» : Option AttributeVal
deriving DecidableEq, Repr

/-- A Python value passed as the first tuple component of a value-prompt
answer; `_format_value_prompts` checks `type(prompt) == Prompt` exactly. -/
inductive PyVal : Type where
  | prompt (p : PromptObj)
  | other (tagged : String)
deriving DecidableEq, Repr

def isPromptType : PyVal → Bool
  | .prompt _ => true
  | .other _ => false

/-- Python `sep.join(parts)`. -/
def pyJoin (sep : String) : List String → String
  | [] => ""
  | [s] => s
  | s :: rest => s ++ sep ++ pyJoin sep rest

def valuePromptErrorMsg : String :=
  "Invalid syntax for value prompt " ++ "answers. Must pass (Prompt, string) tuples"

/-- The loop of `Report._format_value_prompts`: `enumerate` index, the string
built so far, the remaining `(prompt, s)` pairs. -/
def fvpLoop : Nat → String → List (PyVal × String) → Except PyError String
  | _, result, [] => .ok result
  | i, result, (prompt, s) :: rest =>
      let result := if i > 0 then result ++ "^" else result
      if s ≠ "" then fvpLoop (i + 1) (result ++ s) rest
      else if ¬(s = "" ∧ isPromptType prompt = true) then
        .error (.mstrReport valuePromptErrorMsg)
      else fvpLoop (i + 1) result rest

/-- `Report._format_value_prompts` (sans the debugger breakpoint). -/
def format_value_prompts (prompts : List (PyVal × String)) :
    Except PyError (List (String × String)) :=
  (fvpLoop 0 "" prompts).map (fun result => [("valuePromptAnswers", result)])

/-- The loop of `Report._format_element_prompts` over the dictionary items. -/
def fepLoop : String → List (PromptObj × List String) → Except PyError String
  | result, [] => .ok result
  | result, (prompt, values) :: rest =>
      let result := if result ≠ "" then result ++ "," else result
      match prompt.«attribute» with
      | none => .error .attributeError
      | some a =>
          match a.guid with
          | none => .error .typeError
          | some g =>
              match values with
              | [] => fepLoop (result ++ g ++ ";") rest
              | _ :: _ =>
                  let pre := ";" ++ g ++ ":"
                  fepLoop (result ++ g ++ ";" ++ g ++ ":" ++ pyJoin pre values) rest

/-- `Report._format_element_prompts`; the input list is the dictionary in its
iteration order. -/
def format_element_prompts (prompts : List (PromptObj × List String)) :
    Except PyError (List (String × String)) :=
  (fepLoop "" prompts).map (fun result => [("elementsPromptAnswers", result)])

/-! ## Report session state, transport, parsing, execution -/

/-- The row matrix: each cell pairs a descriptor reference with the cell
text. -/
abbrev RowMatrix := List (List (Nat × Option String))

/-- The mutable fields of a `Report` object, plus the descriptor heap. -/
structure ReportState : Type where
  heap : Heap
  attributes : List Nat
  metrics : List Nat
  headers : List Nat
  values : Option RowMatrix

/-- `Report.__init__`: empty caches, `_values = None`. -/
def freshReport (h : Heap) : ReportState := ⟨h, [], [], [], none⟩

/-- The transport collaborator: a stream of responses and a call counter. -/
structure World : Type where
  respond : Nat → Xml
  calls : Nat

/-- `MstrClient._request`: one GET, returning the next response. -/
def request (w : World) : World × Xml :=
  ({ w with calls := w.calls + 1 }, w.respond w.calls)

/-- `Report._report_errors`: raise when the document holds an `error` tag. -/
def report_errors (d : Xml) : Except PyError Bool :=
  match pqTag d "error" with
  | [] => .ok false
  | e :: _ =>
      match e.text with
      | none => .error .typeError
      | some t =>
          .error (.mstrReport ("There was an error running the report." ++
            "Microstrategy error message: " ++ t))

/-- The loop of `Report._get_headers` over `headers.children()`.  State
mutations made before a failure persist, as they do on the Python object. -/
def ghLoop (obj : List Xml) : ReportState → List Xml → ReportState × Except PyError Unit
  | st, [] => (st, .ok ())
  | st, col :: rest =>
      match col.attrs.lookup "rfd" with
      | none => (st, .error .keyError)
      | some v =>
          let elemSel := pqFindAttr "rfd" v obj
          if (pqFindTag "attribute" elemSel).isEmpty then
            let p := internMetric st.heap (pqAttr elemSel "id") (pqAttr elemSel "name")
            ghLoop obj { st with heap := p.1, metrics := st.metrics ++ [p.2],
                                 headers := st.headers ++ [p.2] } rest
          else
            let p := internAttribute st.heap (pqAttr elemSel "id") (pqAttr elemSel "name")
            ghLoop obj { st with heap := p.1, attributes := st.attributes ++ [p.2],
                                 headers := st.headers ++ [p.2] } rest

/-- `Report._get_headers`. -/
def get_headers_parse (st : ReportState) (d : Xml) : ReportState × Except PyError Unit :=
  ghLoop (pqTag d "objects") st (pqChildren (pqTag d "headers"))

/-- One row of the matrix: `(self._headers[index], val.text)` for each cell,
`index` counting from the given offset. -/
def buildRow (headers : List Nat) : Nat → List Xml → Except PyError (List (Nat × Option String))
  | _, [] => .ok []
  | i, val :: rest =>
      match headers.get? i with
      | none => .error .indexError
      | some hd =>
          match buildRow headers (i + 1) rest with
          | .error e => .error e
          | .ok row => .ok ((hd, val.text) :: row)

/-- The row matrix: one row per `r` element. -/
def buildRows (headers : List Nat) : List Xml → Except PyError RowMatrix
  | [] => .ok []
  | row :: rest =>
      match buildRow headers 0 row.children with
      | .error e => .error e
      | .ok r =>
          match buildRows headers rest with
          | .error e => .error e
          | .ok rs => .ok (r :: rs)

/-- `Report._parse_report`: error check, header resolution when the header
cache is empty, then the row matrix. -/
def parse_report (st : ReportState) (d : Xml) : ReportState × Except PyError RowMatrix :=
  match report_errors d with
  | .error e => (st, .error e)
  | .ok _ =>
      let step := if st.headers.isEmpty then get_headers_parse st d else (st, .ok ())
      match step.2 with
      | .error e => (step.1, .error e)
      | .ok _ =>
          match buildRows step.1.headers (pqTag d "r") with
          | .error e => (step.1, .error e)
          | .ok rows => (step.1, .ok rows)

/-- `Report.execute` on its unprompted path: one request, then
`self._values = self._parse_report(response)`; on an exception `_values`
keeps its previous value. -/
def execute (st : ReportState) (w : World) : Except PyError Unit × ReportState × World :=
  let rq := request w
  let pr := parse_report st rq.2
  match pr.2 with
  | .error e => (.error e, pr.1, rq.1)
  | .ok rows => (.ok (), { pr.1 with values := some rows }, rq.1)

/-- `Report.get_headers`: the cached list when non-empty, else an error. -/
def get_headers (st : ReportState) (w : World) :
    Except PyError (List Nat) × ReportState × World :=
  if st.headers.isEmpty then
    (.error (.mstrReport "Execute a report before viewing the headers"), st, w)
  else (.ok st.headers, st, w)

/-- `Report.get_values`: the cached matrix when present (`is not None`). -/
def get_values (st : ReportState) (w : World) :
    Except PyError RowMatrix × ReportState × World :=
  match st.values with
  | some v => (.ok v, st, w)
  | none => (.error (.mstrReport "Execute a report before viewing the rows"), st, w)

/-- `Report.get_metrics`: the cached list when non-empty, else an error. -/
def get_metrics (st : ReportState) (w : World) :
    Except PyError (List Nat) × ReportState × World :=
  if st.metrics.isEmpty then
    (.error (.mstrReport "Execute a report before viewing the metrics"), st, w)
  else (.ok st.metrics, st, w)

/-- The loop of `Report._parse_attributes` over `d('a')`: interning happens
cell by cell, the `_attributes` assignment only at the end. -/
def paLoop (h : Heap) : List Xml → Heap × Except PyError (List Nat)
  | [] => (h, .ok [])
  | a :: rest =>
      match childFind a "did" with
      | none => (h, .error .attributeError)
      | some didEl =>
          match childFind a "n" with
          | none => (h, .error .attributeError)
          | some nEl =>
              let p := internAttribute h didEl.text nEl.text
              match paLoop p.1 rest with
              | (h2, .error e) => (h2, .error e)
              | (h2, .ok rs) => (h2, .ok (p.2 :: rs))

/-- `Report._parse_attributes`: replaces the attribute cache wholesale on
success; on a failure inside the comprehension the cache is untouched but
descriptors already interned remain. -/
def parse_attributes (st : ReportState) (d : Xml) : ReportState × Except PyError Unit :=
  match paLoop st.heap (pqTag d "a") with
  | (h, .error e) => ({ st with heap := h }, .error e)
  | (h, .ok rs) => ({ st with heap := h, attributes := rs }, .ok ())

/-- `Report.get_attributes`: the cached list when non-empty; otherwise a
`browseAttributeForms` request is issued and parsed. -/
def get_attributes (st : ReportState) (w : World) :
    Except PyError (List Nat) × ReportState × World :=
  if st.attributes.isEmpty then
    let rq := request w
    let pa := parse_attributes st rq.2
    match pa.2 with
    | .error e => (.error e, pa.1, rq.1)
    | .ok _ => (.ok pa.1.attributes, pa.1, rq.1)
  else (.ok st.attributes, st, w)

/-! ## Helper notions used by the theorems -/

/-- Concatenation of a list of strings. -/
def strConcat : List String → String
  | [] => ""
  | s :: rest => s ++ strConcat rest

/-- A prompt whose only populated field is a bound attribute with the given
guid, as element-prompt formatting requires. -/
def promptWithGuid (g : String) : PromptObj :=
  ⟨none, none, none, some ⟨some g, none⟩⟩

/-- The wire segment one element prompt contributes, per the spec: the
attribute guid, then each value prefixed by the guid again, `;`-separated;
just `guid;` when the value list is empty. -/
def elementSegment (g : String) : List String → String
  | [] => g ++ ";"
  | values => g ++ ";" ++ g ++ ":" ++ pyJoin (";" ++ g ++ ":") values

theorem str_append_eq_empty {a b : String} (h : a ++ b = "") : a = "" ∧ b = "" := by
  cases a with
  | mk da =>
      cases b with
      | mk db =>
          have hd : da ++ db = [] := by simpa [String.ext_iff] using h
          have h1 : da = [] := (List.append_eq_nil.mp hd).1
          have h2 : db = [] := (List.append_eq_nil.mp hd).2
          constructor <;> simp [String.ext_iff, h1, h2]

theorem str_ne_empty_left {a : String} (b : String) (ha : a ≠ "") : a ++ b ≠ "" :=
  fun h => ha (str_append_eq_empty h).1

theorem str_ne_empty_right (a : String) {b : String} (hb : b ≠ "") : a ++ b ≠ "" :=
  fun h => hb (str_append_eq_empty h).2

theorem pyJoin_cons_concat (sep s : String) (L : List String) :
    pyJoin sep (s :: L) = s ++ strConcat (L.map (fun t => sep ++ t)) := by
  induction L generalizing s with
  | nil => simp [pyJoin, strConcat]
  | cons x t ih => simp [pyJoin, ih, strConcat, String.append_assoc]

theorem elementSegment_ne_empty (g : String) (vs : List String) :
    elementSegment g vs ≠ "" := by
  cases vs with
  | nil => exact str_ne_empty_right _ (by decide)
  | cons v t =>
      exact str_ne_empty_left _ (str_ne_empty_right _ (by decide))

theorem fepLoop_acc (l : List (String × List String)) :
    ∀ acc : String, acc ≠ "" →
      fepLoop acc (l.map (fun p => (promptWithGuid p.1, p.2))) =
        .ok (acc ++ strConcat (l.map (fun p => "," ++ elementSegment p.1 p.2))) := by
  induction l with
  | nil => intro acc hacc; simp [fepLoop, strConcat]
  | cons p t ih =>
      intro acc hacc
      have hne : (acc ++ "," ++ p.1 ++ ";") ≠ "" :=
        str_ne_empty_right _ (by decide)
      have hne2 : ∀ s : String, (acc ++ "," ++ p.1 ++ ";" ++ p.1 ++ ":" ++ s) ≠ "" :=
        fun s => str_ne_empty_left _ (str_ne_empty_right _ (by decide))
      simp only [promptWithGuid] at ih ⊢
      cases hvals : p.2 with
      | nil =>
          simp only [List.map_cons, fepLoop, promptWithGuid, hvals, if_pos hacc]
          rw [ih _ hne]
          simp [elementSegment, strConcat, String.append_assoc]
      | cons v vs =>
          simp only [List.map_cons, fepLoop, promptWithGuid, hvals, if_pos hacc]
          rw [ih _ (hne2 _)]
          simp [elementSegment, strConcat, String.append_assoc]

/-- Claim C5: element-prompt formatting emits, for a prompt whose bound
attribute has guid `G`, the segment `G;G:v1;G:v2;...` (just `G;` for an empty
value list, and exactly `G;G:A;G:B` for values `[A, B]`), joins the segments
of successive prompts with `,`, and returns the result under the key
`elementsPromptAnswers`. -/
theorem element_prompt_formatting :
    (∀ l : List (String × List String),
        format_element_prompts (l.map (fun p => (promptWithGuid p.1, p.2))) =
          .ok [("elementsPromptAnswers",
            pyJoin "," (l.map (fun p => elementSegment p.1 p.2)))]) ∧
    (∀ g a b : String,
        elementSegment g [a, b] = g ++ ";" ++ g ++ ":" ++ a ++ ";" ++ g ++ ":" ++ b) ∧
    (∀ g : String, elementSegment g [] = g ++ ";") := by
  refine ⟨?_, ?_, fun g => rfl⟩
  · intro l
    cases l with
    | nil => rfl
    | cons p t =>
        obtain ⟨g, vals⟩ := p
        unfold format_element_prompts
        have hne : ("" ++ elementSegment g vals) ≠ "" := by
          rw [String.empty_append]; exact elementSegment_ne_empty _ _
        have step : fepLoop "" (((g, vals) :: t).map (fun q => (promptWithGuid q.1, q.2))) =
            .ok ("" ++ elementSegment g vals ++
              strConcat (t.map (fun q => "," ++ elementSegment q.1 q.2))) := by
          have htail := fepLoop_acc t ("" ++ elementSegment g vals) hne
          simp only [promptWithGuid] at htail ⊢
          cases vals with
          | nil =>
              simp only [List.map_cons, fepLoop]
              rw [if_neg (by simp)]
              rw [show ("" ++ g ++ ";") = "" ++ elementSegment g [] by
                simp [elementSegment]]
              exact htail
          | cons v vs =>
              simp only [List.map_cons, fepLoop]
              rw [if_neg (by simp)]
              rw [show ("" ++ g ++ ";" ++ g ++ ":" ++ pyJoin (";" ++ g ++ ":") (v :: vs)) =
                  "" ++ elementSegment g (v :: vs) by
                simp [elementSegment, String.append_assoc]]
              exact htail
        rw [step, List.map_cons, pyJoin_cons_concat]
        simp only [Except.map, String.empty_append]
        rw [List.map_map]
        rfl
  · intro g a b
    simp [elementSegment, pyJoin, String.append_assoc]

theorem fvpLoop_cons_append (i : Nat) (acc : String) (p : PyVal) (s : String)
    (t : List (PyVal × String)) (hs : s ≠ "") :
    fvpLoop i acc ((p, s) :: t) =
      fvpLoop (i + 1) ((if i > 0 then acc ++ "^" else acc) ++ s) t := by
  simp only [fvpLoop]
  rw [if_pos hs]

theorem fvpLoop_cons_skip (i : Nat) (acc : String) (p : PyVal)
    (t : List (PyVal × String)) (hp : isPromptType p = true) :
    fvpLoop i acc ((p, "") :: t) =
      fvpLoop (i + 1) (if i > 0 then acc ++ "^" else acc) t := by
  simp only [fvpLoop]
  rw [if_neg (show ¬("" ≠ "") by simp)]
  simp [hp]

theorem fvpLoop_cons_err (i : Nat) (acc : String) (p : PyVal)
    (t : List (PyVal × String)) (hp : isPromptType p = false) :
    fvpLoop i acc ((p, "") :: t) = .error (.mstrReport valuePromptErrorMsg) := by
  simp only [fvpLoop]
  rw [if_neg (show ¬("" ≠ "") by simp)]
  simp [hp]

theorem fvpLoop_pos (l : List (PyVal × String)) :
    ∀ (i : Nat) (acc : String), 0 < i →
      (∀ pr ∈ l, pr.2 ≠ "" ∨ isPromptType pr.1 = true) →
      fvpLoop i acc l = .ok (acc ++ strConcat (l.map (fun pr => "^" ++ pr.2))) := by
  induction l with
  | nil => intro i acc _ _; simp [fvpLoop, strConcat]
  | cons pr t ih =>
      intro i acc hi hvalid
      obtain ⟨p, s⟩ := pr
      have htail : ∀ pr ∈ t, pr.2 ≠ "" ∨ isPromptType pr.1 = true :=
        fun q hq => hvalid q (List.mem_cons_of_mem _ hq)
      by_cases hs : s = ""
      · subst hs
        have hp : isPromptType p = true := by
          rcases hvalid (p, "") (List.mem_cons_self _ _) with h | h
          · exact absurd rfl h
          · exact h
        rw [fvpLoop_cons_skip i acc p t hp, if_pos hi]
        rw [ih (i + 1) _ (Nat.succ_pos i) htail]
        simp [strConcat, String.append_assoc]
      · rw [fvpLoop_cons_append i acc p s t hs, if_pos hi]
        rw [ih (i + 1) _ (Nat.succ_pos i) htail]
        simp [strConcat, String.append_assoc]

theorem fvpLoop_err (x : PyVal × String) (post : List (PyVal × String))
    (hx : x.2 = "") (hp : isPromptType x.1 = false)
    (preList : List (PyVal × String)) :
    ∀ (i : Nat) (acc : String),
      (∀ pr ∈ preList, pr.2 ≠ "" ∨ isPromptType pr.1 = true) →
      fvpLoop i acc (preList ++ x :: post) = .error (.mstrReport valuePromptErrorMsg) := by
  induction preList with
  | nil =>
      intro i acc _
      obtain ⟨p, s⟩ := x
      simp only at hx hp
      subst hx
      rw [List.nil_append]
      exact fvpLoop_cons_err i acc p post hp
  | cons q t ih =>
      intro i acc hvalid
      obtain ⟨p, s⟩ := q
      have htail : ∀ pr ∈ t, pr.2 ≠ "" ∨ isPromptType pr.1 = true :=
        fun r hr => hvalid r (List.mem_cons_of_mem _ hr)
      by_cases hs : s = ""
      · subst hs
        have hq : isPromptType p = true := by
          rcases hvalid (p, "") (List.mem_cons_self _ _) with h | h
          · exact absurd rfl h
          · exact h
        rw [List.cons_append, fvpLoop_cons_skip _ _ _ _ hq]
        exact ih (i + 1) _ htail
      · rw [List.cons_append, fvpLoop_cons_append _ _ _ _ _ hs]
        exact ih (i + 1) _ htail

/-- Claim C6: value-prompt formatting joins the answer strings with `^` in
input order under the key `valuePromptAnswers` (so `[(p1, X), (p2, "")]` with
`p2` a plain Prompt yields `X^`), accepts an empty answer silently only when
the paired value is of the exact `Prompt` type, and otherwise fails with the
invalid-syntax `MstrReportException`. -/
theorem value_prompt_formatting :
    (∀ l : List (PyVal × String),
        (∀ pr ∈ l, pr.2 ≠ "" ∨ isPromptType pr.1 = true) →
        format_value_prompts l =
          .ok [("valuePromptAnswers", pyJoin "^" (l.map Prod.snd))]) ∧
    (∀ (preList : List (PyVal × String)) (x : PyVal × String)
        (post : List (PyVal × String)),
        x.2 = "" → isPromptType x.1 = false →
        (∀ pr ∈ preList, pr.2 ≠ "" ∨ isPromptType pr.1 = true) →
        format_value_prompts (preList ++ x :: post) =
          .error (.mstrReport valuePromptErrorMsg)) := by
  constructor
  · intro l hvalid
    cases l with
    | nil => rfl
    | cons pr t =>
        obtain ⟨p, s⟩ := pr
        have htail : ∀ q ∈ t, q.2 ≠ "" ∨ isPromptType q.1 = true :=
          fun q hq => hvalid q (List.mem_cons_of_mem _ hq)
        unfold format_value_prompts
        have step : fvpLoop 0 "" ((p, s) :: t) =
            .ok (s ++ strConcat (t.map (fun q => "^" ++ q.2))) := by
          by_cases hs : s = ""
          · subst hs
            have hp : isPromptType p = true := by
              rcases hvalid (p, "") (List.mem_cons_self _ _) with h | h
              · exact absurd rfl h
              · exact h
            rw [fvpLoop_cons_skip 0 "" p t hp]
            rw [if_neg (show ¬(0 > 0) by decide)]
            rw [fvpLoop_pos t 1 "" Nat.one_pos htail]
          · rw [fvpLoop_cons_append 0 "" p s t hs]
            rw [if_neg (show ¬(0 > 0) by decide)]
            rw [fvpLoop_pos t 1 _ Nat.one_pos htail]
            simp
        rw [step, List.map_cons, pyJoin_cons_concat, List.map_map]
        rfl
  · intro preList x post hx hp hvalid
    unfold format_value_prompts
    rw [fvpLoop_err x post hx hp preList 0 "" hvalid]
    rfl

/-- Witness for claim C6 at the concrete inputs of the spec: a pair with a
non-empty string followed by a plain Prompt with an empty string formats to
`X^`, and an empty string paired with a non-Prompt value fails. -/
theorem value_prompt_formatting_witness :
    format_value_prompts
        [(.other "np", "X"), (.prompt ⟨none, none, none, none⟩, "")] =
      .ok [("valuePromptAnswers", "X^")] ∧
    format_value_prompts
        [(.prompt ⟨none, none, none, none⟩, "X"), (.other "np", "")] =
      .error (.mstrReport valuePromptErrorMsg) := by
  constructor
  · have h := value_prompt_formatting.1
      [(.other "np", "X"), (.prompt ⟨none, none, none, none⟩, "")] (by decide)
    simpa using h
  · exact value_prompt_formatting.2 [(.prompt ⟨none, none, none, none⟩, "X")]
      (.other "np", "") [] rfl rfl (by decide)

/-- Claim C4: interning the same (kind, guid) twice returns the identical
object (same heap reference and an unchanged heap), and the stored descriptor
keeps the first name; the second name argument is ignored. -/
theorem intern_first_write_wins (k : DescKind) (h : Heap) (g : String)
    (n1 n2 : Option String) (hfresh : instLookup k h (some g) = none) :
    intern k (intern k h (some g) n1).1 (some g) n2 = intern k h (some g) n1 ∧
    (intern k h (some g) n1).1.store.get? (intern k h (some g) n1).2 =
      some ⟨k, some g, n1⟩ := by
  cases k with
  | «attribute» =>
      simp only [instLookup] at hfresh
      simp only [intern, internAttribute, hfresh]
      refine ⟨?_, ?_⟩
      · simp [List.lookup]
      · simp [List.get?_concat_length]
  | metric =>
      simp only [instLookup] at hfresh
      simp only [intern, internMetric, hfresh]
      refine ⟨?_, ?_⟩
      · simp [List.lookup]
      · simp [List.get?_concat_length]

/-- Witness for claim C4: interning guid `G` as an Attribute first with name
`first`, then with name `second`, returns the same reference into the same
heap, and the descriptor keeps the name `first`. -/
theorem intern_first_write_wins_witness :
    instLookup DescKind.attribute emptyHeap (some "G") = none ∧
    intern .attribute (intern .attribute emptyHeap (some "G") (some "first")).1
        (some "G") (some "second") =
      intern .attribute emptyHeap (some "G") (some "first") ∧
    (intern .attribute emptyHeap (some "G") (some "first")).1.store.get?
        (intern .attribute emptyHeap (some "G") (some "first")).2 =
      some ⟨.attribute, some "G", some "first"⟩ :=
  ⟨rfl,
   (intern_first_write_wins .attribute emptyHeap "G" (some "first") (some "second") rfl).1,
   (intern_first_write_wins .attribute emptyHeap "G" (some "first") (some "second") rfl).2⟩

/-! ## Concrete documents used by the witnesses -/

/-- A well-formed execution response: one attribute column (Region), one
metric column (Sales), two data rows. -/
def sampleDoc : Xml :=
  .elem "root" [] none [
    .elem "objects" [] none [
      .elem "obj1" [("rfd", "0"), ("id", "RG"), ("name", "Region")] none
        [.elem "attribute" [] none []],
      .elem "obj2" [("rfd", "1"), ("id", "SL"), ("name", "Sales")] none
        [.elem "metric" [] none []]
    ],
    .elem "headers" [] none [
      .elem "col" [("rfd", "0")] none [],
      .elem "col" [("rfd", "1")] none []
    ],
    .elem "r" [] none [.elem "v" [] (some "Northeast") [], .elem "v" [] (some "100") []],
    .elem "r" [] none [.elem "v" [] (some "Southwest") [], .elem "v" [] (some "200") []]
  ]

/-- A service-error execution response. -/
def errorDoc : Xml :=
  .elem "root" [] none [.elem "error" [] (some "bad report") []]

/-- A response with neither headers nor rows; it parses without error to an
empty matrix and leaves every list cache empty. -/
def emptyDoc : Xml := .elem "root" [] none []

/-- A `browseAttributeForms` response with one attribute entry. -/
def attrDoc : Xml :=
  .elem "root" [] none
    [.elem "a" [] none [.elem "did" [] (some "G1") [], .elem "n" [] (some "Name1") []]]

def sampleWorld : World := ⟨fun _ => sampleDoc, 0⟩

def errorWorld : World := ⟨fun _ => errorDoc, 0⟩

def emptyWorld : World := ⟨fun _ => emptyDoc, 0⟩

def attrWorld : World := ⟨fun _ => attrDoc, 0⟩

/-! ## Claim C1: service errors raise and leave the caches untouched -/

/-- Claim C1: when the response document contains an `error` tag whose text
is `t`, execution raises `MstrReportException` with a message ending in the
service-supplied `t`, and the session state — header, attribute, metric and
value caches included — is returned exactly as it was. -/
theorem error_response_raises (st : ReportState) (w : World) (e : Xml)
    (rest : List Xml) (t : String)
    (hfind : pqTag (w.respond w.calls) "error" = e :: rest)
    (htext : e.text = some t) :
    execute st w =
      (.error (.mstrReport ("There was an error running the report." ++
          "Microstrategy error message: " ++ t)), st,
        { w with calls := w.calls + 1 }) := by
  unfold execute request parse_report report_errors
  simp only [hfind, htext]

/-- Witness for claim C1: the `errorDoc` response with text `bad report`. -/
theorem error_response_raises_witness :
    pqTag (errorWorld.respond errorWorld.calls) "error" =
      [Xml.elem "error" [] (some "bad report") []] ∧
    execute (freshReport emptyHeap) errorWorld =
      (.error (.mstrReport ("There was an error running the report." ++
          "Microstrategy error message: " ++ "bad report")), freshReport emptyHeap,
        { errorWorld with calls := 1 }) :=
  ⟨rfl, error_response_raises (freshReport emptyHeap) errorWorld
    (Xml.elem "error" [] (some "bad report") []) [] "bad report" rfl rfl⟩

/-! ## Claim C2: shape of the parsed row matrix -/

theorem buildRow_ok (hs : List Nat) :
    ∀ (cells : List Xml) (i : Nat) (row : List (Nat × Option String)),
      buildRow hs i cells = .ok row →
      row = (List.enumFrom i cells).map (fun p => (hs.getD p.1 0, p.2.text)) := by
  intro cells
  induction cells with
  | nil =>
      intro i row h
      simp only [buildRow] at h
      cases h
      simp
  | cons v vs ih =>
      intro i row h
      simp only [buildRow] at h
      cases hget : hs.get? i with
      | none => rw [hget] at h; cases h
      | some hd =>
          rw [hget] at h
          cases hrec : buildRow hs (i + 1) vs with
          | error e => rw [hrec] at h; cases h
          | ok r =>
              rw [hrec] at h
              cases h
              rw [List.enumFrom_cons, List.map_cons]
              rw [← ih (i + 1) r hrec]
              have hget2 : hs[i]? = some hd := by
                rw [← List.get?_eq_getElem?]; exact hget
              simp [List.getD_eq_get?, List.get?_eq_getElem?, hget2]

theorem buildRows_ok (hs : List Nat) :
    ∀ (rl : List Xml) (rows : RowMatrix),
      buildRows hs rl = .ok rows →
      rows = rl.map (fun r =>
        (List.enumFrom 0 r.children).map (fun p => (hs.getD p.1 0, p.2.text))) := by
  intro rl
  induction rl with
  | nil =>
      intro rows h
      simp only [buildRows] at h
      cases h
      simp
  | cons r rest ih =>
      intro rows h
      simp only [buildRows] at h
      cases hrow : buildRow hs 0 r.children with
      | error e => rw [hrow] at h; cases h
      | ok row0 =>
          rw [hrow] at h
          cases hrest : buildRows hs rest with
          | error e => rw [hrest] at h; cases h
          | ok rs =>
              rw [hrest] at h
              cases h
              rw [List.map_cons, ← ih rs hrest, ← buildRow_ok hs r.children 0 row0 hrow]

/-- Inversion of a successful `_parse_report`: no error tag fired, the row
matrix is `buildRows` over the `r` elements with the resulting headers, the
header resolution ran exactly when the header cache was empty, and otherwise
the state is untouched. -/
theorem parse_report_ok (st : ReportState) (d : Xml) (st1 : ReportState)
    (rows : RowMatrix) (h : parse_report st d = (st1, .ok rows)) :
    buildRows st1.headers (pqTag d "r") = .ok rows ∧
    (st.headers.isEmpty = true → get_headers_parse st d = (st1, .ok ())) ∧
    (st.headers.isEmpty = false → st1 = st) := by
  unfold parse_report at h
  cases herr : report_errors d with
  | error e => rw [herr] at h; cases h
  | ok b =>
      rw [herr] at h
      cases hemp : st.headers.isEmpty with
      | false =>
          rw [hemp] at h
          simp only [Bool.false_eq_true, if_false] at h
          cases hrows : buildRows st.headers (pqTag d "r") with
          | error e => rw [hrows] at h; cases h
          | ok rs =>
              rw [hrows] at h
              cases h
              exact ⟨hrows, fun hc => Bool.noConfusion hc, fun _ => rfl⟩
      | true =>
          rw [hemp] at h
          simp only [if_true] at h
          cases hgp : get_headers_parse st d with
          | mk stg resg =>
              rw [hgp] at h
              cases resg with
              | error e => simp at h
              | ok u =>
                  cases u
                  simp only at h
                  cases hrows : buildRows stg.headers (pqTag d "r") with
                  | error e => rw [hrows] at h; cases h
                  | ok rs =>
                      rw [hrows] at h
                      cases h
                      exact ⟨hrows, fun _ => rfl, fun hc => Bool.noConfusion hc⟩

/-- Claim C2: a successfully parsed response yields one matrix row per `r`
element in document order; each row pairs its cells in document order with
the header reference at the same zero-based index together with the cell
text.  Rows therefore share column descriptors by reference: every row's
j-th cell carries the same header entry. -/
theorem row_matrix_shape (st : ReportState) (d : Xml) (st1 : ReportState)
    (rows : RowMatrix) (h : parse_report st d = (st1, .ok rows)) :
    rows = (pqTag d "r").map (fun r =>
      (List.enumFrom 0 r.children).map
        (fun p => (st1.headers.getD p.1 0, p.2.text))) :=
  buildRows_ok _ _ _ (parse_report_ok st d st1 rows h).1

/-- Witness for claim C2: parsing `sampleDoc` from a fresh session yields the
2-by-2 matrix, both rows' first cell carries the same reference 0, and that
reference denotes an Attribute. -/
theorem row_matrix_shape_witness :
    (parse_report (freshReport emptyHeap) sampleDoc).2 =
      .ok [[(0, some "Northeast"), (1, some "100")],
           [(0, some "Southwest"), (1, some "200")]] ∧
    [[(0, some "Northeast"), (1, some "100")],
     [(0, some "Southwest"), (1, some "200")]] =
      (pqTag sampleDoc "r").map (fun r =>
        (List.enumFrom 0 r.children).map
          (fun p => ((parse_report (freshReport emptyHeap) sampleDoc).1.headers.getD p.1 0,
            p.2.text))) ∧
    kindAt (parse_report (freshReport emptyHeap) sampleDoc).1.heap 0 =
      some DescKind.attribute :=
  ⟨rfl,
   row_matrix_shape (freshReport emptyHeap) sampleDoc
     (parse_report (freshReport emptyHeap) sampleDoc).1
     [[(0, some "Northeast"), (1, some "100")],
      [(0, some "Southwest"), (1, some "200")]] rfl,
   rfl⟩

/-! ## Claim C3: header resolution -/

/-- Well-formedness of the descriptor heap: each `_instances` table maps a
guid to a stored descriptor of the corresponding kind with that guid. -/
def HeapWF (h : Heap) : Prop :=
  (∀ g r, h.attrInstances.lookup g = some r →
    ∃ nm, h.store.get? r = some ⟨DescKind.attribute, g, nm⟩) ∧
  (∀ g r, h.metricInstances.lookup g = some r →
    ∃ nm, h.store.get? r = some ⟨DescKind.metric, g, nm⟩)

/-- Heap extension: stored descriptors and interned references persist. -/
def heapLe (h1 h2 : Heap) : Prop :=
  (∀ r c, h1.store.get? r = some c → h2.store.get? r = some c) ∧
  (∀ g r, h1.attrInstances.lookup g = some r → h2.attrInstances.lookup g = some r) ∧
  (∀ g r, h1.metricInstances.lookup g = some r → h2.metricInstances.lookup g = some r)

theorem heapLe_refl (h : Heap) : heapLe h h :=
  ⟨fun _ _ hx => hx, fun _ _ hx => hx, fun _ _ hx => hx⟩

theorem heapLe_trans {h1 h2 h3 : Heap} (a : heapLe h1 h2) (b : heapLe h2 h3) :
    heapLe h1 h3 :=
  ⟨fun r c hx => b.1 r c (a.1 r c hx),
   fun g r hx => b.2.1 g r (a.2.1 g r hx),
   fun g r hx => b.2.2 g r (a.2.2 g r hx)⟩

theorem lookup_cons_preserve {β : Type} (l : List (Option String × β))
    (g g' : Option String) (b r : β)
    (hfresh : l.lookup g = none) (h : l.lookup g' = some r) :
    ((g, b) :: l).lookup g' = some r := by
  simp only [List.lookup]
  cases hbe : g' == g with
  | true =>
      have hg : g' = g := eq_of_beq hbe
      rw [hg, hfresh] at h
      cases h
  | false => exact h

theorem lookup_cons_self {β : Type} (l : List (Option String × β))
    (g : Option String) (b : β) : ((g, b) :: l).lookup g = some b := by
  simp [List.lookup]

theorem store_extend {l : List ColumnDesc} {x : ColumnDesc} {r : Nat} {c : ColumnDesc}
    (h : l.get? r = some c) : (l ++ [x]).get? r = some c := by
  have hb : r < l.length := (List.get?_eq_some.mp h).1
  rw [List.get?_append hb]
  exact h

theorem internAttribute_spec (h : Heap) (g n : Option String) (hwf : HeapWF h) :
    HeapWF (internAttribute h g n).1 ∧
    heapLe h (internAttribute h g n).1 ∧
    (internAttribute h g n).1.attrInstances.lookup g = some (internAttribute h g n).2 ∧
    (∃ nm, (internAttribute h g n).1.store.get? (internAttribute h g n).2 =
      some ⟨DescKind.attribute, g, nm⟩) := by
  cases hl : h.attrInstances.lookup g with
  | some r =>
      simp only [internAttribute, hl]
      exact ⟨hwf, heapLe_refl h, trivial, hwf.1 g r hl⟩
  | none =>
      simp only [internAttribute, hl]
      refine ⟨⟨?_, ?_⟩, ⟨?_, ?_, ?_⟩, ?_, ?_⟩
      · intro g' r' hlook
        simp only [List.lookup] at hlook
        cases hbe : g' == g with
        | true =>
            rw [hbe] at hlook
            cases hlook
            have hg : g' = g := eq_of_beq hbe
            exact ⟨n, by rw [hg]; exact List.get?_concat_length _ _⟩
        | false =>
            rw [hbe] at hlook
            obtain ⟨nm, hst⟩ := hwf.1 g' r' hlook
            exact ⟨nm, store_extend hst⟩
      · intro g' r' hlook
        obtain ⟨nm, hst⟩ := hwf.2 g' r' hlook
        exact ⟨nm, store_extend hst⟩
      · intro r c hx
        exact store_extend hx
      · intro g' r' hx
        exact lookup_cons_preserve _ _ _ _ _ hl hx
      · intro g' r' hx
        exact hx
      · exact lookup_cons_self _ _ _
      · exact ⟨n, List.get?_concat_length _ _⟩

theorem internMetric_spec (h : Heap) (g n : Option String) (hwf : HeapWF h) :
    HeapWF (internMetric h g n).1 ∧
    heapLe h (internMetric h g n).1 ∧
    (internMetric h g n).1.metricInstances.lookup g = some (internMetric h g n).2 ∧
    (∃ nm, (internMetric h g n).1.store.get? (internMetric h g n).2 =
      some ⟨DescKind.metric, g, nm⟩) := by
  cases hl : h.metricInstances.lookup g with
  | some r =>
      simp only [internMetric, hl]
      exact ⟨hwf, heapLe_refl h, trivial, hwf.2 g r hl⟩
  | none =>
      simp only [internMetric, hl]
      refine ⟨⟨?_, ?_⟩, ⟨?_, ?_, ?_⟩, ?_, ?_⟩
      · intro g' r' hlook
        obtain ⟨nm, hst⟩ := hwf.1 g' r' hlook
        exact ⟨nm, store_extend hst⟩
      · intro g' r' hlook
        simp only [List.lookup] at hlook
        cases hbe : g' == g with
        | true =>
            rw [hbe] at hlook
            cases hlook
            have hg : g' = g := eq_of_beq hbe
            exact ⟨n, by rw [hg]; exact List.get?_concat_length _ _⟩
        | false =>
            rw [hbe] at hlook
            obtain ⟨nm, hst⟩ := hwf.2 g' r' hlook
            exact ⟨nm, store_extend hst⟩
      · intro r c hx
        exact store_extend hx
      · intro g' r' hx
        exact hx
      · intro g' r' hx
        exact lookup_cons_preserve _ _ _ _ _ hl hx
      · exact lookup_cons_self _ _ _
      · exact ⟨n, List.get?_concat_length _ _⟩

/-- The classification step of `_get_headers` for one header entry: the rfd
cross-reference, the attribute/metric marker test, and the id/name
attributes of the matched object. -/
def classifyHeader (obj : List Xml) (col : Xml) :
    Option (DescKind × Option String × Option String) :=
  match col.attrs.lookup "rfd" with
  | none => none
  | some v =>
      let elemSel := pqFindAttr "rfd" v obj
      some (if (pqFindTag "attribute" elemSel).isEmpty then DescKind.metric
            else DescKind.attribute,
        pqAttr elemSel "id", pqAttr elemSel "name")

theorem ghLoop_sound (obj : List Xml) :
    ∀ (cols : List Xml) (st st1 : ReportState),
      HeapWF st.heap → ghLoop obj st cols = (st1, .ok ()) →
      HeapWF st1.heap ∧ heapLe st.heap st1.heap ∧ st1.values = st.values ∧
      ∃ new : List Nat,
        st1.headers = st.headers ++ new ∧
        st1.attributes = st.attributes ++
          new.filter (fun r => decide (kindAt st1.heap r = some DescKind.attribute)) ∧
        st1.metrics = st.metrics ++
          new.filter (fun r => decide (kindAt st1.heap r = some DescKind.metric)) ∧
        new.length = cols.length ∧
        (∀ i, i < cols.length →
          ∃ r k g n nm, new.get? i = some r ∧
            classifyHeader obj (cols.getD i emptyDoc) = some (k, g, n) ∧
            instLookup k st1.heap g = some r ∧
            st1.heap.store.get? r = some ⟨k, g, nm⟩) := by
  intro cols
  induction cols with
  | nil =>
      intro st st1 hwf h
      simp only [ghLoop] at h
      cases h
      refine ⟨hwf, heapLe_refl _, rfl, [], by simp, by simp, by simp, rfl, ?_⟩
      intro i hi
      exact absurd hi (Nat.not_lt_zero i)
  | cons col rest ih =>
      intro st st1 hwf h
      simp only [ghLoop] at h
      cases hrfd : col.attrs.lookup "rfd" with
      | none => simp only [hrfd] at h; cases h
      | some v =>
          simp only [hrfd] at h
          cases hempty : (pqFindTag "attribute" (pqFindAttr "rfd" v obj)).isEmpty with
          | true =>
              rw [if_pos hempty] at h
              obtain ⟨w1, w2, w3, w4⟩ :=
                internMetric_spec st.heap
                  (pqAttr (pqFindAttr "rfd" v obj) "id")
                  (pqAttr (pqFindAttr "rfd" v obj) "name") hwf
              obtain ⟨hwf1, hle1, hval, new, hhd, hattr, hmet, hlen, hidx⟩ :=
                ih _ st1 w1 h
              obtain ⟨nm0, hst0⟩ := w4
              have hst1 : st1.heap.store.get?
                  (internMetric st.heap (pqAttr (pqFindAttr "rfd" v obj) "id")
                    (pqAttr (pqFindAttr "rfd" v obj) "name")).2 =
                  some ⟨DescKind.metric, pqAttr (pqFindAttr "rfd" v obj) "id", nm0⟩ :=
                hle1.1 _ _ hst0
              have hkind : kindAt st1.heap
                  (internMetric st.heap (pqAttr (pqFindAttr "rfd" v obj) "id")
                    (pqAttr (pqFindAttr "rfd" v obj) "name")).2 = some DescKind.metric := by
                unfold kindAt
                rw [hst1]
                rfl
              refine ⟨hwf1, heapLe_trans w2 hle1, hval,
                (internMetric st.heap (pqAttr (pqFindAttr "rfd" v obj) "id")
                  (pqAttr (pqFindAttr "rfd" v obj) "name")).2 :: new, ?_, ?_, ?_, ?_, ?_⟩
              · rw [hhd]; simp
              · rw [hattr]
                rw [List.filter_cons_of_neg (by simp [hkind])]
              · rw [hmet]
                rw [List.filter_cons_of_pos (by simp [hkind])]
                simp
              · simp [hlen]
              · intro i hi
                cases i with
                | zero =>
                    refine ⟨_, DescKind.metric,
                      pqAttr (pqFindAttr "rfd" v obj) "id",
                      pqAttr (pqFindAttr "rfd" v obj) "name", nm0, rfl, ?_, ?_, hst1⟩
                    · simp [classifyHeader, hrfd, hempty]
                    · exact hle1.2.2 _ _ w3
                | succ j =>
                    have hj : j < rest.length := Nat.lt_of_succ_lt_succ hi
                    obtain ⟨r, k, g, n, nm, hget, hcls, hinst, hstore⟩ := hidx j hj
                    exact ⟨r, k, g, n, nm, hget, hcls, hinst, hstore⟩
          | false =>
              rw [if_neg (show
                  ¬((pqFindTag "attribute" (pqFindAttr "rfd" v obj)).isEmpty = true) by
                simp [hempty])] at h
              obtain ⟨w1, w2, w3, w4⟩ :=
                internAttribute_spec st.heap
                  (pqAttr (pqFindAttr "rfd" v obj) "id")
                  (pqAttr (pqFindAttr "rfd" v obj) "name") hwf
              obtain ⟨hwf1, hle1, hval, new, hhd, hattr, hmet, hlen, hidx⟩ :=
                ih _ st1 w1 h
              obtain ⟨nm0, hst0⟩ := w4
              have hst1 : st1.heap.store.get?
                  (internAttribute st.heap (pqAttr (pqFindAttr "rfd" v obj) "id")
                    (pqAttr (pqFindAttr "rfd" v obj) "name")).2 =
                  some ⟨DescKind.attribute, pqAttr (pqFindAttr "rfd" v obj) "id", nm0⟩ :=
                hle1.1 _ _ hst0
              have hkind : kindAt st1.heap
                  (internAttribute st.heap (pqAttr (pqFindAttr "rfd" v obj) "id")
                    (pqAttr (pqFindAttr "rfd" v obj) "name")).2 =
                  some DescKind.attribute := by
                unfold kindAt
                rw [hst1]
                rfl
              refine ⟨hwf1, heapLe_trans w2 hle1, hval,
                (internAttribute st.heap (pqAttr (pqFindAttr "rfd" v obj) "id")
                  (pqAttr (pqFindAttr "rfd" v obj) "name")).2 :: new, ?_, ?_, ?_, ?_, ?_⟩
              · rw [hhd]; simp
              · rw [hattr]
                rw [List.filter_cons_of_pos (by simp [hkind])]
                simp
              · rw [hmet]
                rw [List.filter_cons_of_neg (by simp [hkind])]
              · simp [hlen]
              · intro i hi
                cases i with
                | zero =>
                    refine ⟨_, DescKind.attribute,
                      pqAttr (pqFindAttr "rfd" v obj) "id",
                      pqAttr (pqFindAttr "rfd" v obj) "name", nm0, rfl, ?_, ?_, hst1⟩
                    · simp [classifyHeader, hrfd, hempty]
                    · exact hle1.2.1 _ _ w3
                | succ j =>
                    have hj : j < rest.length := Nat.lt_of_succ_lt_succ hi
                    obtain ⟨r, k, g, n, nm, hget, hcls, hinst, hstore⟩ := hidx j hj
                    exact ⟨r, k, g, n, nm, hget, hcls, hinst, hstore⟩

/-- Claim C3: when the header cache is empty, header resolution walks the
header entries in document order (one resolved header per entry, at the same
index), classifies each entry as an Attribute exactly when the object matched
through the shared `rfd` attribute carries an `attribute` marker and as a
Metric otherwise, interns the descriptor (the registry of that kind maps the
guid to the very reference stored), and appends each reference both to the
ordered header list and to the attribute or metric list of its kind. -/
theorem header_resolution (d : Xml) (st st1 : ReportState)
    (hwf : HeapWF st.heap) (hstart : st.headers = [])
    (hrun : get_headers_parse st d = (st1, .ok ())) :
    st1.headers.length = (pqChildren (pqTag d "headers")).length ∧
    st1.attributes = st.attributes ++
      st1.headers.filter (fun r => decide (kindAt st1.heap r = some DescKind.attribute)) ∧
    st1.metrics = st.metrics ++
      st1.headers.filter (fun r => decide (kindAt st1.heap r = some DescKind.metric)) ∧
    ∀ i, i < (pqChildren (pqTag d "headers")).length →
      ∃ r k g n nm, st1.headers.get? i = some r ∧
        classifyHeader (pqTag d "objects")
          ((pqChildren (pqTag d "headers")).getD i emptyDoc) = some (k, g, n) ∧
        instLookup k st1.heap g = some r ∧
        st1.heap.store.get? r = some ⟨k, g, nm⟩ := by
  unfold get_headers_parse at hrun
  obtain ⟨hwf1, hle, hval, new, hhd, hattr, hmet, hlen, hidx⟩ :=
    ghLoop_sound (pqTag d "objects") (pqChildren (pqTag d "headers")) st st1 hwf hrun
  rw [hstart] at hhd
  rw [List.nil_append] at hhd
  subst hhd
  exact ⟨hlen, hattr, hmet, hidx⟩

/-- Witness for claim C3 on `sampleDoc` from a fresh session: two header
entries resolve to two headers, and the attribute and metric caches receive
exactly the headers of their kind. -/
theorem header_resolution_witness :
    (get_headers_parse (freshReport emptyHeap) sampleDoc).1.headers.length =
      (pqChildren (pqTag sampleDoc "headers")).length ∧
    (get_headers_parse (freshReport emptyHeap) sampleDoc).1.attributes =
      (freshReport emptyHeap).attributes ++
        (get_headers_parse (freshReport emptyHeap) sampleDoc).1.headers.filter
          (fun r => decide
            (kindAt (get_headers_parse (freshReport emptyHeap) sampleDoc).1.heap r =
              some DescKind.attribute)) := by
  have hwf : HeapWF (freshReport emptyHeap).heap :=
    ⟨fun g r hx => by simp [List.lookup] at hx,
     fun g r hx => by simp [List.lookup] at hx⟩
  have h := header_resolution sampleDoc (freshReport emptyHeap)
    (get_headers_parse (freshReport emptyHeap) sampleDoc).1 hwf rfl rfl
  exact ⟨h.1, h.2.1⟩

/-! ## Claims C7-C10: cached access, re-execution, transport counting -/

/-- Inversion of a successful `execute`: exactly one request was issued, and
the final state is the parse result with `_values` overwritten. -/
theorem execute_ok (st : ReportState) (w : World) (st1 : ReportState) (w1 : World)
    (h : execute st w = (.ok (), st1, w1)) :
    w1 = { w with calls := w.calls + 1 } ∧
    ∃ stp rows, parse_report st (w.respond w.calls) = (stp, .ok rows) ∧
      st1 = { stp with values := some rows } := by
  simp only [execute, request] at h
  cases hpr : parse_report st (w.respond w.calls) with
  | mk stp res =>
      rw [hpr] at h
      cases res with
      | error e => cases h
      | ok rows =>
          simp only at h
          cases h
          exact ⟨rfl, stp, rows, rfl, rfl⟩

/-- `_parse_report` on a state whose header cache is already populated never
touches the state, and a successful result is the row matrix built against
the existing headers. -/
theorem parse_report_frame (st : ReportState) (d : Xml)
    (hne : st.headers.isEmpty = false) :
    (parse_report st d).1 = st ∧
    (∀ rows, (parse_report st d).2 = .ok rows →
      buildRows st.headers (pqTag d "r") = .ok rows) := by
  unfold parse_report
  cases herr : report_errors d with
  | error e => simp
  | ok b =>
      dsimp only
      rw [if_neg (show ¬(st.headers.isEmpty = true) by simp [hne])]
      cases hb : buildRows st.headers (pqTag d "r") with
      | error e => exact ⟨rfl, fun rows hrows => nomatch hrows⟩
      | ok rows => exact ⟨rfl, fun rows2 hrows => hrows⟩

/-- Claim C9: re-executing a session whose header cache is populated leaves
the heap and the header, attribute and metric caches untouched (header
resolution is not re-run), and on success overwrites the value cache with
the row matrix freshly parsed from the new response. -/
theorem reexecution_frame (st : ReportState) (w : World)
    (res : Except PyError Unit) (st1 : ReportState) (w1 : World)
    (hhdr : st.headers ≠ []) (hexec : execute st w = (res, st1, w1)) :
    st1.heap = st.heap ∧ st1.headers = st.headers ∧
    st1.attributes = st.attributes ∧ st1.metrics = st.metrics ∧
    (res = .ok () →
      ∃ rows, buildRows st.headers (pqTag (w.respond w.calls) "r") = .ok rows ∧
        st1.values = some rows) := by
  have hne : st.headers.isEmpty = false := by
    cases hl : st.headers with
    | nil => exact absurd hl hhdr
    | cons a t => rfl
  obtain ⟨hfst, hok⟩ := parse_report_frame st (w.respond w.calls) hne
  simp only [execute, request] at hexec
  cases hpr : parse_report st (w.respond w.calls) with
  | mk stp pres =>
      have hstp : stp = st := by rw [← hfst, hpr]
      subst hstp
      rw [hpr] at hexec
      cases pres with
      | error e =>
          simp only at hexec
          cases hexec
          exact ⟨rfl, rfl, rfl, rfl, fun hc => by cases hc⟩
      | ok rows =>
          simp only at hexec
          cases hexec
          refine ⟨rfl, rfl, rfl, rfl, fun _ => ⟨rows, ?_, rfl⟩⟩
          exact hok rows (by rw [hpr])

/-- Witness for claim C9: re-executing from the state produced by a first
`sampleWorld` execution keeps the caches and rewrites the values. -/
theorem reexecution_frame_witness :
    (execute (freshReport emptyHeap) sampleWorld).2.1.headers ≠ [] ∧
    ((execute (execute (freshReport emptyHeap) sampleWorld).2.1
        (execute (freshReport emptyHeap) sampleWorld).2.2).2.1.headers =
      (execute (freshReport emptyHeap) sampleWorld).2.1.headers ∧
     (execute (execute (freshReport emptyHeap) sampleWorld).2.1
        (execute (freshReport emptyHeap) sampleWorld).2.2).2.1.metrics =
      (execute (freshReport emptyHeap) sampleWorld).2.1.metrics) := by
  have h := reexecution_frame (execute (freshReport emptyHeap) sampleWorld).2.1
    (execute (freshReport emptyHeap) sampleWorld).2.2
    (execute (execute (freshReport emptyHeap) sampleWorld).2.1
      (execute (freshReport emptyHeap) sampleWorld).2.2).1
    (execute (execute (freshReport emptyHeap) sampleWorld).2.1
      (execute (freshReport emptyHeap) sampleWorld).2.2).2.1
    (execute (execute (freshReport emptyHeap) sampleWorld).2.1
      (execute (freshReport emptyHeap) sampleWorld).2.2).2.2
    (by decide) rfl
  exact ⟨by decide, h.2.1, h.2.2.2.1⟩

/-- Claim C10: after a successful execute whose response parses to zero rows,
`get_values` returns the empty matrix without error (the value cache is
tested for presence, not truthiness), while `get_headers` and `get_metrics`
raise the not-executed error whenever their cached lists are empty, even
after that successful execution. -/
theorem empty_result_access (st : ReportState) (w : World)
    (st1 : ReportState) (w1 : World)
    (hexec : execute st w = (.ok (), st1, w1)) :
    (pqTag (w.respond w.calls) "r" = [] → get_values st1 w1 = (.ok [], st1, w1)) ∧
    (st1.headers = [] → get_headers st1 w1 =
      (.error (.mstrReport "Execute a report before viewing the headers"), st1, w1)) ∧
    (st1.metrics = [] → get_metrics st1 w1 =
      (.error (.mstrReport "Execute a report before viewing the metrics"), st1, w1)) := by
  obtain ⟨hw, stp, rows, hpr, hst⟩ := execute_ok st w st1 w1 hexec
  refine ⟨?_, ?_, ?_⟩
  · intro hnor
    have hb := (parse_report_ok st _ stp rows hpr).1
    rw [hnor] at hb
    have hrows : rows = [] := by
      simp only [buildRows] at hb
      cases hb
      rfl
    subst hst
    subst hrows
    rfl
  · intro hh
    unfold get_headers
    rw [if_pos (show st1.headers.isEmpty = true by rw [hh]; rfl)]
  · intro hm
    unfold get_metrics
    rw [if_pos (show st1.metrics.isEmpty = true by rw [hm]; rfl)]

/-- Witness for claim C10: executing against `emptyDoc` succeeds; the values
accessor then returns the empty matrix while the header and metric accessors
raise. -/
theorem empty_result_access_witness :
    get_values (execute (freshReport emptyHeap) emptyWorld).2.1
        (execute (freshReport emptyHeap) emptyWorld).2.2 =
      (.ok [], (execute (freshReport emptyHeap) emptyWorld).2.1,
        (execute (freshReport emptyHeap) emptyWorld).2.2) ∧
    get_headers (execute (freshReport emptyHeap) emptyWorld).2.1
        (execute (freshReport emptyHeap) emptyWorld).2.2 =
      (.error (.mstrReport "Execute a report before viewing the headers"),
        (execute (freshReport emptyHeap) emptyWorld).2.1,
        (execute (freshReport emptyHeap) emptyWorld).2.2) ∧
    get_metrics (execute (freshReport emptyHeap) emptyWorld).2.1
        (execute (freshReport emptyHeap) emptyWorld).2.2 =
      (.error (.mstrReport "Execute a report before viewing the metrics"),
        (execute (freshReport emptyHeap) emptyWorld).2.1,
        (execute (freshReport emptyHeap) emptyWorld).2.2) := by
  have h := empty_result_access (freshReport emptyHeap) emptyWorld
    (execute (freshReport emptyHeap) emptyWorld).2.1
    (execute (freshReport emptyHeap) emptyWorld).2.2 rfl
  exact ⟨h.1 rfl, h.2.1 rfl, h.2.2 rfl⟩

/-- Counterexample to claim C7 as stated: a successful `execute` against a
response with no metric columns leaves the metric cache empty, after which
`get_metrics` raises the not-executed error instead of returning a cached
result. -/
theorem cached_access_counterexample :
    (execute (freshReport emptyHeap) emptyWorld).1 = .ok () ∧
    (get_metrics (execute (freshReport emptyHeap) emptyWorld).2.1
        (execute (freshReport emptyHeap) emptyWorld).2.2).1 =
      .error (.mstrReport "Execute a report before viewing the metrics") :=
  ⟨rfl, rfl⟩

/-- Claim C7 as amended: before any execute, the three accessors raise the
not-executed error; after a successful execute, `get_values` returns the
cached matrix and `get_headers`/`get_metrics` return their cached lists
provided those are non-empty — in every case without touching the transport
(the returned world is the input world). -/
theorem cached_access (h : Heap) (w0 : World) (st st1 : ReportState)
    (w w1 : World) (hexec : execute st w = (.ok (), st1, w1)) :
    get_values (freshReport h) w0 =
      (.error (.mstrReport "Execute a report before viewing the rows"),
        freshReport h, w0) ∧
    get_headers (freshReport h) w0 =
      (.error (.mstrReport "Execute a report before viewing the headers"),
        freshReport h, w0) ∧
    get_metrics (freshReport h) w0 =
      (.error (.mstrReport "Execute a report before viewing the metrics"),
        freshReport h, w0) ∧
    (∃ rows, st1.values = some rows ∧ get_values st1 w1 = (.ok rows, st1, w1)) ∧
    (st1.headers ≠ [] → get_headers st1 w1 = (.ok st1.headers, st1, w1)) ∧
    (st1.metrics ≠ [] → get_metrics st1 w1 = (.ok st1.metrics, st1, w1)) := by
  obtain ⟨hw, stp, rows, hpr, hst⟩ := execute_ok st w st1 w1 hexec
  refine ⟨rfl, rfl, rfl, ⟨rows, ?_, ?_⟩, ?_, ?_⟩
  · rw [hst]
  · subst hst; rfl
  · intro hne
    unfold get_headers
    rw [if_neg (show ¬(st1.headers.isEmpty = true) by
      cases hl : st1.headers with
      | nil => exact absurd hl hne
      | cons a t => simp)]
  · intro hne
    unfold get_metrics
    rw [if_neg (show ¬(st1.metrics.isEmpty = true) by
      cases hl : st1.metrics with
      | nil => exact absurd hl hne
      | cons a t => simp)]

/-- Witness for claim C7 as amended, on `sampleWorld`: fresh accessors raise;
after the execute, values and metrics come back from the cache with the
transport untouched. -/
theorem cached_access_witness :
    get_values (freshReport emptyHeap) sampleWorld =
      (.error (.mstrReport "Execute a report before viewing the rows"),
        freshReport emptyHeap, sampleWorld) ∧
    (∃ rows, (execute (freshReport emptyHeap) sampleWorld).2.1.values = some rows ∧
      get_values (execute (freshReport emptyHeap) sampleWorld).2.1
          (execute (freshReport emptyHeap) sampleWorld).2.2 =
        (.ok rows, (execute (freshReport emptyHeap) sampleWorld).2.1,
          (execute (freshReport emptyHeap) sampleWorld).2.2)) ∧
    get_metrics (execute (freshReport emptyHeap) sampleWorld).2.1
        (execute (freshReport emptyHeap) sampleWorld).2.2 =
      (.ok [1], (execute (freshReport emptyHeap) sampleWorld).2.1,
        (execute (freshReport emptyHeap) sampleWorld).2.2) := by
  have h := cached_access emptyHeap sampleWorld (freshReport emptyHeap)
    (execute (freshReport emptyHeap) sampleWorld).2.1 sampleWorld
    (execute (freshReport emptyHeap) sampleWorld).2.2 rfl
  exact ⟨h.1, h.2.2.2.1, h.2.2.2.2.2 (by decide)⟩

/-- Counterexample to claim C8 as stated: with an empty attribute cache and
no prior execution, `get_attributes` does not raise; it issues a transport
request and returns the attributes parsed from the response. -/
theorem attributes_access_counterexample :
    (freshReport emptyHeap).attributes = [] ∧
    (get_attributes (freshReport emptyHeap) attrWorld).1 = .ok [0] ∧
    (get_attributes (freshReport emptyHeap) attrWorld).2.2.calls = 1 :=
  ⟨rfl, rfl, rfl⟩

/-- Claim C8 as amended: with a non-empty attribute cache `get_attributes`
returns the cached list without a transport request; with an empty cache it
issues exactly one `browseAttributeForms` request and, when the response
parses, returns the freshly parsed attribute list instead of raising a
not-executed error. -/
theorem attributes_access (st : ReportState) (w : World) :
    (st.attributes ≠ [] → get_attributes st w = (.ok st.attributes, st, w)) ∧
    (st.attributes = [] →
      (get_attributes st w).2.2 = { w with calls := w.calls + 1 } ∧
      ∀ st1, parse_attributes st (w.respond w.calls) = (st1, .ok ()) →
        get_attributes st w = (.ok st1.attributes, st1, { w with calls := w.calls + 1 })) := by
  constructor
  · intro hne
    unfold get_attributes
    rw [if_neg (show ¬(st.attributes.isEmpty = true) by
      cases hl : st.attributes with
      | nil => exact absurd hl hne
      | cons a t => simp)]
  · intro hemp
    have he : st.attributes.isEmpty = true := by rw [hemp]; rfl
    unfold get_attributes request
    rw [if_pos he]
    dsimp only
    constructor
    · cases hpa : parse_attributes st (w.respond w.calls) with
      | mk s1 r1 => cases r1 <;> rfl
    · intro st1 hpa
      rw [hpa]

/-- Witness for claim C8 as amended: the fresh session against `attrWorld`
issues one request and returns the one parsed attribute reference. -/
theorem attributes_access_witness :
    (get_attributes (freshReport emptyHeap) attrWorld).2.2 =
      { attrWorld with calls := 1 } ∧
    get_attributes (freshReport emptyHeap) attrWorld =
      (.ok (parse_attributes (freshReport emptyHeap)
          (attrWorld.respond attrWorld.calls)).1.attributes,
        (parse_attributes (freshReport emptyHeap)
          (attrWorld.respond attrWorld.calls)).1,
        { attrWorld with calls := 1 }) := by
  have h := (attributes_access (freshReport emptyHeap) attrWorld).2 rfl
  exact ⟨h.1, h.2 (parse_attributes (freshReport emptyHeap)
    (attrWorld.respond attrWorld.calls)).1 rfl⟩

end PyMstr
